import Mathlib

/-!
Shallow embedding of the medicaid-payments outlier-detection scripts.

Two variants exist in the repository:
* a streaming single-pass script (file medicaid_outliers-stream.py) whose
  detector flags on four metrics, embedded in namespace Medicaid.Streaming;
* a chunked-accumulation script (file medicaid_outliers.py) whose detector
  flags on TOTAL_PAID only, embedded in namespace Medicaid.Chunked.

CSV rows are association lists of string fields (csv.DictReader rows).
Python floats are modelled as rationals; the NaN sentinel produced by
pd.to_numeric coercion failure and by safe_ratio's zero-denominator case is
modelled as Option.none.  The in-place dict mutation performed by the
streaming detector is modelled by explicit state passing: the detector
returns the updated row list together with the flagged rows.
pd.to_numeric string parsing is an external collaborator and is passed in
as a parameter of type String → Option ℚ.
-/

set_option autoImplicit false

namespace Medicaid

/-- A CSV row: named fields mapped to string values, in field order. -/
abbrev Row := List (String × String)

/-- Python dict read access row[k] (first matching field). -/
def lookupField (r : Row) (k : String) : Option String :=
  (r.find? (fun p => p.1 == k)).map Prod.snd

/-- Python dict assignment row[k] = v: overwrite the existing entry in
place if the key is present, otherwise append the new entry at the end. -/
def setField (r : Row) (k v : String) : Row :=
  if r.any (fun p => p.1 == k) then r.map (fun p => if p.1 == k then (k, v) else p)
  else r ++ [(k, v)]

/-- safe_ratio from the streaming script: numerator / denominator if
denominator != 0 else float('nan'); NaN is modelled as none. -/
def safe_ratio (numerator denominator : ℚ) : Option ℚ :=
  if denominator ≠ 0 then some (numerator / denominator) else none

/-- One row of the pandas DataFrame after the three numeric columns were
successfully coerced; idx is the row's index in the original group list. -/
structure NumRow where
  idx : ℕ
  paid : ℚ
  benef : ℚ
  claims : ℚ
deriving DecidableEq, Repr

/-- pd.to_numeric applied to one field of a row: a missing field or an
unparseable string both yield NaN (none). -/
def getNumField (parse : String → Option ℚ) (r : Row) (c : String) : Option ℚ :=
  (lookupField r c).bind parse

/-- Coercion of a whole row: some iff TOTAL_PAID, TOTAL_UNIQUE_BENEFICIARIES
and TOTAL_CLAIMS all parse (the df.dropna(subset=numeric_cols) criterion). -/
def coerceRow (parse : String → Option ℚ) (i : ℕ) (r : Row) : Option NumRow :=
  match getNumField parse r "TOTAL_PAID",
        getNumField parse r "TOTAL_UNIQUE_BENEFICIARIES",
        getNumField parse r "TOTAL_CLAIMS" with
  | some p, some b, some c => some ⟨i, p, b, c⟩
  | _, _, _ => none

/-- The rows surviving numeric coercion, tagged with their original index
(the DataFrame df after dropna(subset=numeric_cols), index preserved). -/
def validRowsFrom (parse : String → Option ℚ) : ℕ → List Row → List NumRow
  | _, [] => []
  | i, r :: rs =>
    match coerceRow parse i r with
    | some v => v :: validRowsFrom parse (i + 1) rs
    | none => validRowsFrom parse (i + 1) rs

def validRows (parse : String → Option ℚ) (rows : List Row) : List NumRow :=
  validRowsFrom parse 0 rows

/-- Derived metric PAID_PER_BENEF of a coerced row. -/
def paidPerBenef (r : NumRow) : Option ℚ := safe_ratio r.paid r.benef

/-- Derived metric PAID_PER_CLAIM of a coerced row. -/
def paidPerClaim (r : NumRow) : Option ℚ := safe_ratio r.paid r.claims

/-- df_clean = df.dropna(subset=['PAID_PER_BENEF', 'PAID_PER_CLAIM']). -/
def cleanRows (vs : List NumRow) : List NumRow :=
  vs.filter (fun r => (paidPerBenef r).isSome && (paidPerClaim r).isSome)

/-- Insertion into a sorted list of rationals (ascending). -/
def insertSorted (x : ℚ) : List ℚ → List ℚ
  | [] => [x]
  | y :: ys => if x ≤ y then x :: y :: ys else y :: insertSorted x ys

/-- Ascending sort of the series values. -/
def sortQ (xs : List ℚ) : List ℚ := xs.foldr insertSorted []

/-- pandas Series.quantile with the default linear interpolation: with the
values sorted ascending, the q-quantile sits at position h = (n-1)*q and is
interpolated linearly between the neighbouring order statistics. -/
def quantile (xs : List ℚ) (q : ℚ) : ℚ :=
  let s := sortQ xs
  let n := s.length
  let h : ℚ := ((n : ℚ) - 1) * q
  let i : ℕ := (Int.floor h).toNat
  let lo := s.getD i 0
  let hi := s.getD (i + 1) lo
  lo + (h - (i : ℚ)) * (hi - lo)

namespace Streaming

/-- get_upper_bound from the streaming script: float('inf') (modelled as
none) for series shorter than 4, otherwise Q3 + 1.5 * IQR. -/
def get_upper_bound (xs : List ℚ) : Option ℚ :=
  if xs.length < 4 then none
  else
    let q1 := quantile xs (1 / 4)
    let q3 := quantile xs (3 / 4)
    let iqr := q3 - q1
    some (q3 + 3 / 2 * iqr)

/-- The four per-group thresholds of the bounds dict. -/
structure Bounds where
  high_total_paid : Option ℚ
  high_paid_per_benef : Option ℚ
  high_paid_per_claim : Option ℚ
  high_unique_benef : Option ℚ

/-- bounds = {...}: each threshold is computed over the df_clean column. -/
def computeBounds (clean : List NumRow) : Bounds where
  high_total_paid := get_upper_bound (clean.map (fun r => r.paid))
  high_paid_per_benef := get_upper_bound (clean.filterMap paidPerBenef)
  high_paid_per_claim := get_upper_bound (clean.filterMap paidPerClaim)
  high_unique_benef := get_upper_bound (clean.map (fun r => r.benef))

/-- value > bound, where bound may be +infinity (none): x > inf is false. -/
def exceedsBound (x : ℚ) : Option ℚ → Bool
  | none => false
  | some b => decide (b < x)

/-- The flags list built for one surviving row, in the fixed check order of
the script; each ratio test first requires the derived value to be
non-NaN (pd.notna). -/
def rowFlags (b : Bounds) (r : NumRow) : List String :=
  (if exceedsBound r.paid b.high_total_paid then ["high_total_paid"] else []) ++
  ((paidPerBenef r).elim []
    (fun v => if exceedsBound v b.high_paid_per_benef then ["high_paid_per_benef"] else [])) ++
  ((paidPerClaim r).elim []
    (fun v => if exceedsBound v b.high_paid_per_claim then ["high_paid_per_claim"] else [])) ++
  (if exceedsBound r.benef b.high_unique_benef then ["high_unique_beneficiaries"] else [])

/-- The flagging loop: for each row of df (in index order) with a non-empty
flags list, mutate the original dict group_rows[idx] by setting
OUTLIER_REASONS to the comma-joined flags and append that same dict to
flagged_rows.  State passing: takes and returns the caller's row list. -/
def applyFlags (b : Bounds) : List NumRow → List Row → List Row → List Row × List Row
  | [], rows, acc => (rows, acc)
  | r :: vs, rows, acc =>
    let fs := rowFlags b r
    if fs = [] then applyFlags b vs rows acc
    else
      let nr := setField (rows.getD r.idx []) "OUTLIER_REASONS" (String.intercalate "," fs)
      applyFlags b vs (rows.set r.idx nr) (acc ++ [nr])

/-- The row written back by the flagging loop for a flagged record r:
the original dict with OUTLIER_REASONS set to the comma-joined flags. -/
def mutRow (b : Bounds) (rows : List Row) (r : NumRow) : Row :=
  setField (rows.getD r.idx []) "OUTLIER_REASONS" (String.intercalate "," (rowFlags b r))

/-- detect_outliers from the streaming script.  Returns the group row list
after the in-place mutations together with the flagged_rows result. -/
def detect_outliers (parse : String → Option ℚ) (group_rows : List Row) :
    List Row × List Row :=
  if group_rows.length < 4 then (group_rows, [])
  else
    let valid := validRows parse group_rows
    if valid.length < 4 then (group_rows, [])
    else
      let clean := cleanRows valid
      if clean.length < 4 then (group_rows, [])
      else applyFlags (computeBounds clean) valid group_rows []

/-- The (HCPCS_CODE, CLAIM_FROM_MONTH) grouping key of a row. -/
def rowKey (r : Row) : Option String × Option String :=
  (lookupField r "HCPCS_CODE", lookupField r "CLAIM_FROM_MONTH")

/-- The driver loop of main: on a key change with a non-empty buffer, run
the detector on the buffered group and extend the output; after the input
is exhausted, process the final pending group. -/
def mainAux (parse : String → Option ℚ) :
    List Row → Option (Option String × Option String) → List Row → List Row → List Row
  | [], _, grp, out => if grp ≠ [] then out ++ (detect_outliers parse grp).2 else out
  | r :: rs, ck, grp, out =>
    let k := rowKey r
    if some k ≠ ck ∧ grp ≠ [] then
      mainAux parse rs (some k) [r] (out ++ (detect_outliers parse grp).2)
    else
      mainAux parse rs (some k) (grp ++ [r]) out

/-- outlier_rows accumulated by main over the whole input sequence. -/
def main_outlier_rows (parse : String → Option ℚ) (rows : List Row) : List Row :=
  mainAux parse rows none [] []

/-- The four thresholds a group's surviving rows are tested against. -/
def groupBounds (parse : String → Option ℚ) (rows : List Row) : Bounds :=
  computeBounds (cleanRows (validRows parse rows))

end Streaming

namespace Chunked

/-- detect_outliers from the chunked script: the group is a DataFrame whose
numeric columns were typed at read time; a record is kept iff its
TOTAL_PAID strictly exceeds the group's upper IQR fence on TOTAL_PAID. -/
def detect_outliers (group : List NumRow) : List NumRow :=
  if group.length < 4 then []
  else
    let q1 := quantile (group.map (fun r => r.paid)) (1 / 4)
    let q3 := quantile (group.map (fun r => r.paid)) (3 / 4)
    let iqr := q3 - q1
    let ub := q3 + 3 / 2 * iqr
    group.filter (fun r => decide (ub < r.paid))

end Chunked

/-- Concrete numeric parser used by the closed witnesses below: reads the
handful of decimal literals appearing in the concrete test groups. -/
def parseW (s : String) : Option ℚ :=
  if s = "1" then some 1
  else if s = "2" then some 2
  else if s = "5" then some 5
  else if s = "10" then some 10
  else if s = "12" then some 12
  else if s = "13" then some 13
  else if s = "14" then some 14
  else if s = "15" then some 15
  else if s = "100" then some 100
  else none

/-- A keyless concrete row with the three numeric fields. -/
def rowOf (paid benef claims : String) : Row :=
  [("TOTAL_PAID", paid), ("TOTAL_UNIQUE_BENEFICIARIES", benef), ("TOTAL_CLAIMS", claims)]

/-- The literal scenario group: TOTAL_PAID values 10, 12, 13, 14, 15, 100. -/
def G2 : List Row :=
  [rowOf "10" "1" "1", rowOf "12" "1" "1", rowOf "13" "1" "1",
   rowOf "14" "1" "1", rowOf "15" "1" "1", rowOf "100" "1" "1"]

/-- An undersized group of 3 valid rows. -/
def G3 : List Row := [rowOf "10" "1" "1", rowOf "12" "1" "1", rowOf "13" "1" "1"]

/-- A group of 4 records sharing identical metric values. -/
def G4 : List Row :=
  [rowOf "10" "2" "5", rowOf "10" "2" "5", rowOf "10" "2" "5", rowOf "10" "2" "5"]

/-- A group whose only extreme value sits in TOTAL_UNIQUE_BENEFICIARIES:
the two variants disagree on it. -/
def G8 : List Row :=
  [rowOf "10" "1" "1", rowOf "10" "1" "1", rowOf "10" "1" "1",
   rowOf "10" "1" "1", rowOf "10" "1" "1", rowOf "10" "100" "1"]

/-- The same group as G8 with the numeric columns already typed, as the
chunked script's pd.read_csv dtype map produces them. -/
def N8 : List NumRow :=
  [⟨0, 10, 1, 1⟩, ⟨1, 10, 1, 1⟩, ⟨2, 10, 1, 1⟩, ⟨3, 10, 1, 1⟩, ⟨4, 10, 1, 1⟩, ⟨5, 10, 100, 1⟩]

/-- A concrete row carrying the grouping key fields as well. -/
def keyedRow (h m paid benef claims : String) : Row :=
  [("HCPCS_CODE", h), ("CLAIM_FROM_MONTH", m), ("TOTAL_PAID", paid),
   ("TOTAL_UNIQUE_BENEFICIARIES", benef), ("TOTAL_CLAIMS", claims)]

/-- A one-record group under key ("A", "1"). -/
def GA : List Row := [keyedRow "A" "1" "10" "1" "1"]

/-- A six-record final group under key ("B", "1") holding an outlier. -/
def GB : List Row :=
  [keyedRow "B" "1" "10" "1" "1", keyedRow "B" "1" "12" "1" "1",
   keyedRow "B" "1" "13" "1" "1", keyedRow "B" "1" "14" "1" "1",
   keyedRow "B" "1" "15" "1" "1", keyedRow "B" "1" "100" "1" "1"]

/-! ## Helper lemmas -/

theorem coerceRow_idx {parse : String → Option ℚ} {i : ℕ} {r : Row} {v : NumRow}
    (h : coerceRow parse i r = some v) : v.idx = i := by
  rcases hp : getNumField parse r "TOTAL_PAID" with _ | p <;>
    rcases hb : getNumField parse r "TOTAL_UNIQUE_BENEFICIARIES" with _ | b <;>
    rcases hc : getNumField parse r "TOTAL_CLAIMS" with _ | c <;>
    simp only [coerceRow, hp, hb, hc] at h <;>
    try exact Option.noConfusion h
  injection h with h2
  rw [← h2]

theorem validRowsFrom_idx_bounds (parse : String → Option ℚ) :
    ∀ (rows : List Row) (i : ℕ), ∀ v ∈ validRowsFrom parse i rows,
      i ≤ v.idx ∧ v.idx < i + rows.length := by
  intro rows
  induction rows with
  | nil => intro i v hv; simp [validRowsFrom] at hv
  | cons r rs ih =>
    intro i v hv
    rcases hc : coerceRow parse i r with _ | w
    · simp only [validRowsFrom, hc] at hv
      have := ih (i + 1) v hv
      simp only [List.length_cons]
      omega
    · simp only [validRowsFrom, hc, List.mem_cons] at hv
      rcases hv with hv | hv
      · subst hv
        have := coerceRow_idx hc
        simp only [List.length_cons]
        omega
      · have := ih (i + 1) v hv
        simp only [List.length_cons]
        omega

theorem validRowsFrom_pairwise (parse : String → Option ℚ) :
    ∀ (rows : List Row) (i : ℕ),
      (validRowsFrom parse i rows).Pairwise (fun a c => a.idx < c.idx) := by
  intro rows
  induction rows with
  | nil => intro i; simp [validRowsFrom]
  | cons r rs ih =>
    intro i
    rcases hc : coerceRow parse i r with _ | w
    · simp only [validRowsFrom, hc]
      exact ih (i + 1)
    · simp only [validRowsFrom, hc]
      refine List.Pairwise.cons ?_ (ih (i + 1))
      intro v hv
      have h1 := (validRowsFrom_idx_bounds parse rs (i + 1) v hv).1
      have h2 := coerceRow_idx hc
      omega

theorem validRows_idx_lt {parse : String → Option ℚ} {rows : List Row} {v : NumRow}
    (hv : v ∈ validRows parse rows) : v.idx < rows.length := by
  have := (validRowsFrom_idx_bounds parse rows 0 v hv).2
  omega

theorem validRows_pairwise_ne (parse : String → Option ℚ) (rows : List Row) :
    (validRows parse rows).Pairwise (fun a c => a.idx ≠ c.idx) := by
  exact (validRowsFrom_pairwise parse rows 0).imp (fun h => Nat.ne_of_lt h)

theorem lookupField_eq_none {r : Row} {k : String} (h : lookupField r k = none) :
    (r.any (fun p => p.1 == k)) = false := by
  rcases hf : r.find? (fun p => p.1 == k) with _ | p
  · simp only [List.any_eq_false]
    intro q hq
    have := List.find?_eq_none.mp hf q hq
    simpa using this
  · exfalso
    unfold lookupField at h
    rw [hf] at h
    simp at h

theorem setField_of_lookup_none {r : Row} {k : String} (v : String)
    (h : lookupField r k = none) : setField r k v = r ++ [(k, v)] := by
  unfold setField
  rw [lookupField_eq_none h]
  simp

theorem filterMap_length_all_isSome {α β : Type} (f : α → Option β) :
    ∀ l : List α, (∀ x ∈ l, (f x).isSome) → (l.filterMap f).length = l.length := by
  intro l
  induction l with
  | nil => intro _; simp
  | cons x xs ih =>
    intro h
    have hx := h x (by simp)
    rcases hfx : f x with _ | y
    · rw [hfx] at hx; simp at hx
    · simp only [List.filterMap_cons, hfx, List.length_cons]
      rw [ih (fun z hz => h z (by simp [hz]))]

theorem mem_cleanRows {vs : List NumRow} {r : NumRow} :
    r ∈ cleanRows vs ↔ r ∈ vs ∧ (paidPerBenef r).isSome ∧ (paidPerClaim r).isSome := by
  simp [cleanRows, List.mem_filter]

theorem getD_set_ne {l : List Row} {i j : ℕ} {a d : Row} (h : i ≠ j) :
    (l.set i a).getD j d = l.getD j d := by
  rw [List.getD_eq_getElem?_getD, List.getElem?_set_ne h, ← List.getD_eq_getElem?_getD]

theorem getD_set_self {l : List Row} {i : ℕ} {a d : Row} (h : i < l.length) :
    (l.set i a).getD i d = a := by
  rw [List.getD_eq_getElem?_getD, List.getElem?_set_self h]
  rfl

theorem mem_ite_cons_nil {c : Prop} [Decidable c] (s t : String) :
    (s ∈ if c then [t] else []) ↔ (c ∧ s = t) := by
  split <;> simp_all

namespace Streaming

theorem mem_elim_seg (o : Option ℚ) (bnd : Option ℚ) (t s : String) :
    (s ∈ o.elim [] (fun v => if exceedsBound v bnd then [t] else [])) ↔
      (∃ v, o = some v ∧ exceedsBound v bnd = true ∧ s = t) := by
  rcases o with _ | v
  · simp
  · simp [mem_ite_cons_nil, and_assoc]

theorem mem_rowFlags_paid (b : Bounds) (r : NumRow) :
    "high_total_paid" ∈ rowFlags b r ↔ exceedsBound r.paid b.high_total_paid = true := by
  simp only [rowFlags, List.mem_append, mem_ite_cons_nil, mem_elim_seg]
  simp

theorem mem_rowFlags_ppb (b : Bounds) (r : NumRow) :
    "high_paid_per_benef" ∈ rowFlags b r ↔
      ∃ v, paidPerBenef r = some v ∧ exceedsBound v b.high_paid_per_benef = true := by
  simp only [rowFlags, List.mem_append, mem_ite_cons_nil, mem_elim_seg]
  simp

theorem mem_rowFlags_ppc (b : Bounds) (r : NumRow) :
    "high_paid_per_claim" ∈ rowFlags b r ↔
      ∃ v, paidPerClaim r = some v ∧ exceedsBound v b.high_paid_per_claim = true := by
  simp only [rowFlags, List.mem_append, mem_ite_cons_nil, mem_elim_seg]
  simp

theorem mem_rowFlags_benef (b : Bounds) (r : NumRow) :
    "high_unique_beneficiaries" ∈ rowFlags b r ↔
      exceedsBound r.benef b.high_unique_benef = true := by
  simp only [rowFlags, List.mem_append, mem_ite_cons_nil, mem_elim_seg]
  simp

theorem applyFlags_snd (b : Bounds) :
    ∀ (vs : List NumRow) (rows acc : List Row),
      vs.Pairwise (fun a c => a.idx ≠ c.idx) →
      (applyFlags b vs rows acc).2 =
        acc ++ (vs.filter (fun r => !(rowFlags b r).isEmpty)).map (mutRow b rows) := by
  intro vs
  induction vs with
  | nil => intro rows acc _; simp [applyFlags]
  | cons r vs ih =>
    intro rows acc h
    rcases List.pairwise_cons.mp h with ⟨hhead, htail⟩
    by_cases hf : rowFlags b r = []
    · rw [show applyFlags b (r :: vs) rows acc = applyFlags b vs rows acc by
        simp [applyFlags, hf]]
      rw [ih rows acc htail]
      rw [List.filter_cons_of_neg (by simp [hf])]
    · rw [show applyFlags b (r :: vs) rows acc =
          applyFlags b vs (rows.set r.idx (mutRow b rows r)) (acc ++ [mutRow b rows r]) by
        simp [applyFlags, hf, mutRow]]
      rw [ih _ _ htail]
      rw [List.filter_cons_of_pos (by simp [hf])]
      have hmap : ∀ x ∈ vs.filter (fun q => !(rowFlags b q).isEmpty),
          mutRow b (rows.set r.idx (mutRow b rows r)) x = mutRow b rows x := by
        intro x hx
        have hxvs : x ∈ vs := List.mem_of_mem_filter hx
        unfold mutRow
        rw [getD_set_ne (hhead x hxvs)]
      rw [List.map_congr_left hmap, List.map_cons, List.append_assoc]
      rfl

theorem applyFlags_fst_length (b : Bounds) :
    ∀ (vs : List NumRow) (rows acc : List Row),
      (applyFlags b vs rows acc).1.length = rows.length := by
  intro vs
  induction vs with
  | nil => intro rows acc; simp [applyFlags]
  | cons r vs ih =>
    intro rows acc
    by_cases hf : rowFlags b r = [] <;> simp only [applyFlags, hf] <;> simp [hf, ih]

theorem applyFlags_fst_unflagged (b : Bounds) :
    ∀ (vs : List NumRow) (rows acc : List Row) (i : ℕ),
      (∀ r ∈ vs, r.idx = i → rowFlags b r = []) →
      (applyFlags b vs rows acc).1.getD i [] = rows.getD i [] := by
  intro vs
  induction vs with
  | nil => intro rows acc i _; simp [applyFlags]
  | cons r vs ih =>
    intro rows acc i h
    by_cases hf : rowFlags b r = []
    · rw [show applyFlags b (r :: vs) rows acc = applyFlags b vs rows acc by
        simp [applyFlags, hf]]
      exact ih rows acc i (fun q hq => h q (by simp [hq]))
    · have hne : r.idx ≠ i := fun he => hf (h r (by simp) he)
      rw [show applyFlags b (r :: vs) rows acc =
          applyFlags b vs (rows.set r.idx (mutRow b rows r)) (acc ++ [mutRow b rows r]) by
        simp [applyFlags, hf, mutRow]]
      rw [ih _ _ i (fun q hq => h q (by simp [hq]))]
      exact getD_set_ne hne

theorem applyFlags_fst_flagged (b : Bounds) :
    ∀ (vs : List NumRow) (rows acc : List Row),
      vs.Pairwise (fun a c => a.idx ≠ c.idx) →
      (∀ r ∈ vs, r.idx < rows.length) →
      ∀ r ∈ vs, rowFlags b r ≠ [] →
        (applyFlags b vs rows acc).1.getD r.idx [] = mutRow b rows r := by
  intro vs
  induction vs with
  | nil => intro rows acc _ _ r hr; simp at hr
  | cons q vs ih =>
    intro rows acc h hlt r hr hrf
    rcases List.pairwise_cons.mp h with ⟨hhead, htail⟩
    rcases List.mem_cons.mp hr with he | hm
    · subst he
      rw [show applyFlags b (r :: vs) rows acc =
          applyFlags b vs (rows.set r.idx (mutRow b rows r)) (acc ++ [mutRow b rows r]) by
        simp [applyFlags, hrf, mutRow]]
      rw [applyFlags_fst_unflagged b vs _ _ r.idx
        (fun z hz hzi => absurd hzi.symm (hhead z hz))]
      exact getD_set_self (hlt r (by simp))
    · by_cases hf : rowFlags b q = []
      · rw [show applyFlags b (q :: vs) rows acc = applyFlags b vs rows acc by
          simp [applyFlags, hf]]
        exact ih rows acc htail (fun z hz => hlt z (by simp [hz])) r hm hrf
      · rw [show applyFlags b (q :: vs) rows acc =
            applyFlags b vs (rows.set q.idx (mutRow b rows q)) (acc ++ [mutRow b rows q]) by
          simp [applyFlags, hf, mutRow]]
        rw [ih _ _ htail
          (fun z hz => by rw [List.length_set]; exact hlt z (by simp [hz])) r hm hrf]
        unfold mutRow
        rw [getD_set_ne (hhead r hm)]

theorem rowFlags_sublist (b : Bounds) (r : NumRow) :
    List.Sublist (rowFlags b r)
      ["high_total_paid", "high_paid_per_benef",
       "high_paid_per_claim", "high_unique_beneficiaries"] := by
  have htarget :
      (((["high_total_paid"] ++ ["high_paid_per_benef"]) ++ ["high_paid_per_claim"]) ++
        ["high_unique_beneficiaries"]) =
      ["high_total_paid", "high_paid_per_benef",
       "high_paid_per_claim", "high_unique_beneficiaries"] := rfl
  rw [← htarget]
  unfold rowFlags
  refine ((List.Sublist.append ?_ ?_).append ?_).append ?_
  · split <;> simp
  · rcases paidPerBenef r with _ | v
    · simp [Option.elim]
    · simp only [Option.elim]
      split <;> simp
  · rcases paidPerClaim r with _ | v
    · simp [Option.elim]
    · simp only [Option.elim]
      split <;> simp
  · split <;> simp

theorem getD_mem_of_lt {l : List Row} {i : ℕ} {d : Row} (h : i < l.length) :
    l.getD i d ∈ l := by
  simp only [List.getD_eq_getElem?_getD, List.getElem?_eq_getElem h, Option.getD_some]
  exact List.getElem_mem h

theorem detect_outliers_eq (parse : String → Option ℚ) (rows : List Row) :
    detect_outliers parse rows =
      if rows.length < 4 then (rows, [])
      else if (validRows parse rows).length < 4 then (rows, [])
      else if (cleanRows (validRows parse rows)).length < 4 then (rows, [])
      else applyFlags (groupBounds parse rows) (validRows parse rows) rows [] := rfl

end Streaming

/-! ## Claims -/

open Streaming in
/-- C3: for every group that contains fewer than 4 records with fully valid
numeric fields after coercion — whether the group itself has fewer than 4
records, fewer than 4 survive numeric coercion, or fewer than 4 survive the
derived-ratio validity filter — the Outlier Detector returns an empty
result: no flagged record, the caller's rows untouched and no error. -/
theorem C3_undersized_groups_empty (parse : String → Option ℚ) (rows : List Row)
    (h : rows.length < 4 ∨ (validRows parse rows).length < 4 ∨
        (cleanRows (validRows parse rows)).length < 4) :
    (detect_outliers parse rows).2 = [] ∧ (detect_outliers parse rows).1 = rows := by
  rw [detect_outliers_eq]
  by_cases h1 : rows.length < 4
  · simp [h1]
  · by_cases h2 : (validRows parse rows).length < 4
    · simp [h1, h2]
    · by_cases h3 : (cleanRows (validRows parse rows)).length < 4
      · simp [h1, h2, h3]
      · rcases h with h | h | h <;> contradiction

/-- Witness for C3 on the concrete 3-record group. -/
theorem C3_undersized_groups_empty_witness :
    (G3.length < 4 ∨ (validRows parseW G3).length < 4 ∨
        (cleanRows (validRows parseW G3)).length < 4) ∧
    ((Streaming.detect_outliers parseW G3).2 = [] ∧
     (Streaming.detect_outliers parseW G3).1 = G3) :=
  ⟨Or.inl (by simp [G3]),
   C3_undersized_groups_empty parseW G3 (Or.inl (by simp [G3]))⟩

open Streaming in
/-- C5: safe_ratio returns paid / denominator exactly when the denominator
is nonzero and the NaN sentinel exactly when it is zero (it is a total
function, so it never raises); a zero denominator makes the corresponding
derived ratio NaN and removes only that ratio flag from the record's
candidacy, while the raw-metric flags high_total_paid and
high_unique_beneficiaries are still decided by their own comparisons. -/
theorem C5_safe_ratio_zero_denominator :
    (∀ n d : ℚ, (safe_ratio n d = some (n / d) ↔ d ≠ 0) ∧
      (safe_ratio n d = none ↔ d = 0)) ∧
    (∀ (b : Bounds) (r : NumRow), r.benef = 0 →
      paidPerBenef r = none ∧
      "high_paid_per_benef" ∉ rowFlags b r ∧
      ("high_total_paid" ∈ rowFlags b r ↔
        exceedsBound r.paid b.high_total_paid = true) ∧
      ("high_unique_beneficiaries" ∈ rowFlags b r ↔
        exceedsBound r.benef b.high_unique_benef = true)) ∧
    (∀ (b : Bounds) (r : NumRow), r.claims = 0 →
      paidPerClaim r = none ∧ "high_paid_per_claim" ∉ rowFlags b r) := by
  refine ⟨fun n d => ⟨?_, ?_⟩, fun b r hb => ⟨?_, ?_, ?_, ?_⟩, fun b r hc => ⟨?_, ?_⟩⟩
  · unfold safe_ratio
    by_cases hd : d = 0 <;> simp [hd]
  · unfold safe_ratio
    by_cases hd : d = 0 <;> simp [hd]
  · simp [paidPerBenef, hb, safe_ratio]
  · rw [mem_rowFlags_ppb]
    rintro ⟨v, hv, _⟩
    rw [show paidPerBenef r = none by simp [paidPerBenef, hb, safe_ratio]] at hv
    exact Option.noConfusion hv
  · exact mem_rowFlags_paid b r
  · exact mem_rowFlags_benef b r
  · simp [paidPerClaim, hc, safe_ratio]
  · rw [mem_rowFlags_ppc]
    rintro ⟨v, hv, _⟩
    rw [show paidPerClaim r = none by simp [paidPerClaim, hc, safe_ratio]] at hv
    exact Option.noConfusion hv

open Streaming in
/-- C9: whenever the bounds dict is computed (the Step 2 and Step 3 gates
passed, so df_clean has at least 4 rows), every series handed to
get_upper_bound has at least 4 values, hence the fewer-than-4 defensive
fallback (+infinity bound, modelled as none) is unreachable: all four
computed bounds are finite. -/
theorem C9_inf_fallback_unreachable (parse : String → Option ℚ) (rows : List Row)
    (h : ¬ (cleanRows (validRows parse rows)).length < 4) :
    4 ≤ ((cleanRows (validRows parse rows)).map (fun r => r.paid)).length ∧
    4 ≤ ((cleanRows (validRows parse rows)).filterMap paidPerBenef).length ∧
    4 ≤ ((cleanRows (validRows parse rows)).filterMap paidPerClaim).length ∧
    4 ≤ ((cleanRows (validRows parse rows)).map (fun r => r.benef)).length ∧
    (groupBounds parse rows).high_total_paid ≠ none ∧
    (groupBounds parse rows).high_paid_per_benef ≠ none ∧
    (groupBounds parse rows).high_paid_per_claim ≠ none ∧
    (groupBounds parse rows).high_unique_benef ≠ none := by
  have hlen : 4 ≤ (cleanRows (validRows parse rows)).length := Nat.le_of_not_lt h
  have hppb : ((cleanRows (validRows parse rows)).filterMap paidPerBenef).length =
      (cleanRows (validRows parse rows)).length :=
    filterMap_length_all_isSome paidPerBenef _
      (fun x hx => (mem_cleanRows.mp hx).2.1)
  have hppc : ((cleanRows (validRows parse rows)).filterMap paidPerClaim).length =
      (cleanRows (validRows parse rows)).length :=
    filterMap_length_all_isSome paidPerClaim _
      (fun x hx => (mem_cleanRows.mp hx).2.2)
  have hub : ∀ xs : List ℚ, 4 ≤ xs.length → get_upper_bound xs ≠ none := by
    intro xs hxs
    unfold get_upper_bound
    rw [if_neg (Nat.not_lt.mpr hxs)]
    exact Option.noConfusion
  refine ⟨by simpa using hlen, by rw [hppb]; exact hlen, by rw [hppc]; exact hlen,
    by simpa using hlen, ?_, ?_, ?_, ?_⟩ <;>
    first
      | exact hub _ (by simpa using hlen)
      | exact hub _ (by rw [hppb]; exact hlen)
      | exact hub _ (by rw [hppc]; exact hlen)

open Streaming in
/-- C1: once the three gates have passed, every record that survived numeric
coercion (all of df.index, not just df_clean) is evaluated against all four
upper bounds: each flag is in the record's flag list iff the record has a
valid value for that metric and that value strictly exceeds the bound — the
two raw metrics always have a valid value for survivors, while the two
ratio flags additionally require the derived ratio to be non-NaN — and the
flagged output consists exactly of the coercion-survivors with a non-empty
flag list. -/
theorem C1_all_survivors_tested (parse : String → Option ℚ) (rows : List Row)
    (h1 : ¬ rows.length < 4) (h2 : ¬ (validRows parse rows).length < 4)
    (h3 : ¬ (cleanRows (validRows parse rows)).length < 4) :
    (∀ r ∈ validRows parse rows,
      ("high_total_paid" ∈ rowFlags (groupBounds parse rows) r ↔
        exceedsBound r.paid (groupBounds parse rows).high_total_paid = true) ∧
      ("high_paid_per_benef" ∈ rowFlags (groupBounds parse rows) r ↔
        ∃ v, paidPerBenef r = some v ∧
          exceedsBound v (groupBounds parse rows).high_paid_per_benef = true) ∧
      ("high_paid_per_claim" ∈ rowFlags (groupBounds parse rows) r ↔
        ∃ v, paidPerClaim r = some v ∧
          exceedsBound v (groupBounds parse rows).high_paid_per_claim = true) ∧
      ("high_unique_beneficiaries" ∈ rowFlags (groupBounds parse rows) r ↔
        exceedsBound r.benef (groupBounds parse rows).high_unique_benef = true)) ∧
    (detect_outliers parse rows).2 =
      ((validRows parse rows).filter
        (fun r => !(rowFlags (groupBounds parse rows) r).isEmpty)).map
        (mutRow (groupBounds parse rows) rows) := by
  constructor
  · intro r _
    exact ⟨mem_rowFlags_paid _ r, mem_rowFlags_ppb _ r,
      mem_rowFlags_ppc _ r, mem_rowFlags_benef _ r⟩
  · rw [detect_outliers_eq, if_neg h1, if_neg h2, if_neg h3]
    rw [applyFlags_snd _ _ _ _ (validRows_pairwise_ne parse rows), List.nil_append]

open Streaming in
/-- C7: a record is emitted iff its flag set is non-empty; each emitted
record is the original row (every original field value unchanged, in order)
with exactly one appended field OUTLIER_REASONS holding the comma-joined
flag names, and the flag list of every survivor is a sublist of the fixed
check order high_total_paid, high_paid_per_benef, high_paid_per_claim,
high_unique_beneficiaries. -/
theorem C7_emitted_rows_preserved (parse : String → Option ℚ) (rows : List Row)
    (h1 : ¬ rows.length < 4) (h2 : ¬ (validRows parse rows).length < 4)
    (h3 : ¬ (cleanRows (validRows parse rows)).length < 4)
    (hno : ∀ row ∈ rows, lookupField row "OUTLIER_REASONS" = none) :
    (detect_outliers parse rows).2 =
      ((validRows parse rows).filter
        (fun r => !(rowFlags (groupBounds parse rows) r).isEmpty)).map
        (fun r => rows.getD r.idx [] ++
          [("OUTLIER_REASONS",
            String.intercalate "," (rowFlags (groupBounds parse rows) r))]) ∧
    (∀ r ∈ validRows parse rows,
      List.Sublist (rowFlags (groupBounds parse rows) r)
        ["high_total_paid", "high_paid_per_benef",
         "high_paid_per_claim", "high_unique_beneficiaries"]) := by
  constructor
  · rw [detect_outliers_eq, if_neg h1, if_neg h2, if_neg h3]
    rw [applyFlags_snd _ _ _ _ (validRows_pairwise_ne parse rows), List.nil_append]
    refine List.map_congr_left ?_
    intro r hr
    have hlt : r.idx < rows.length := validRows_idx_lt (List.mem_of_mem_filter hr)
    unfold mutRow
    exact setField_of_lookup_none _ (hno _ (getD_mem_of_lt hlt))
  · intro r _
    exact rowFlags_sublist _ r

open Streaming in
/-- C10: the streaming detector mutates its input in place (modelled by the
returned row-list state): the caller's list keeps its length; for every
flagged survivor the entry at its index becomes the original row with
OUTLIER_REASONS set; every position at which no flagged survivor sits is
left unmodified; and the returned flagged list holds exactly the entries of
the caller's updated list at the flagged indices (aliases, not copies). -/
theorem C10_mutates_caller_rows (parse : String → Option ℚ) (rows : List Row)
    (h1 : ¬ rows.length < 4) (h2 : ¬ (validRows parse rows).length < 4)
    (h3 : ¬ (cleanRows (validRows parse rows)).length < 4) :
    (detect_outliers parse rows).1.length = rows.length ∧
    (∀ r ∈ validRows parse rows, rowFlags (groupBounds parse rows) r ≠ [] →
      (detect_outliers parse rows).1.getD r.idx [] =
        mutRow (groupBounds parse rows) rows r) ∧
    (∀ i : ℕ,
      (∀ r ∈ validRows parse rows, r.idx = i →
        rowFlags (groupBounds parse rows) r = []) →
      (detect_outliers parse rows).1.getD i [] = rows.getD i []) ∧
    (detect_outliers parse rows).2 =
      ((validRows parse rows).filter
        (fun r => !(rowFlags (groupBounds parse rows) r).isEmpty)).map
        (fun r => (detect_outliers parse rows).1.getD r.idx []) := by
  rw [detect_outliers_eq, if_neg h1, if_neg h2, if_neg h3]
  refine ⟨applyFlags_fst_length _ _ _ _, ?_, ?_, ?_⟩
  · intro r hr hrf
    exact applyFlags_fst_flagged _ _ _ _ (validRows_pairwise_ne parse rows)
      (fun z hz => validRows_idx_lt hz) r hr hrf
  · intro i hi
    exact applyFlags_fst_unflagged _ _ _ _ i hi
  · rw [applyFlags_snd _ _ _ _ (validRows_pairwise_ne parse rows), List.nil_append]
    refine (List.map_congr_left ?_).symm
    intro r hr
    have hrf : rowFlags (groupBounds parse rows) r ≠ [] := by
      have := List.of_mem_filter hr
      simpa [List.isEmpty_iff] using this
    exact applyFlags_fst_flagged _ _ _ _ (validRows_pairwise_ne parse rows)
      (fun z hz => validRows_idx_lt hz) r (List.mem_of_mem_filter hr) hrf

theorem G2_gate1 : ¬ G2.length < 4 := by
  simp [G2]

theorem G2_gate2 : ¬ (validRows parseW G2).length < 4 := by
  simp [validRows, validRowsFrom, coerceRow, getNumField, lookupField, parseW, G2, rowOf,
    List.find?]

theorem G2_gate3 : ¬ (cleanRows (validRows parseW G2)).length < 4 := by
  simp [validRows, validRowsFrom, coerceRow, getNumField, lookupField, parseW, G2, rowOf,
    List.find?, cleanRows, paidPerBenef, paidPerClaim, safe_ratio]

theorem G4_gate1 : ¬ G4.length < 4 := by
  simp [G4]

theorem G4_gate2 : ¬ (validRows parseW G4).length < 4 := by
  simp [validRows, validRowsFrom, coerceRow, getNumField, lookupField, parseW, G4, rowOf,
    List.find?]

theorem G4_gate3 : ¬ (cleanRows (validRows parseW G4)).length < 4 := by
  simp [validRows, validRowsFrom, coerceRow, getNumField, lookupField, parseW, G4, rowOf,
    List.find?, cleanRows, paidPerBenef, paidPerClaim, safe_ratio]

/-- Witness for C1 on the concrete six-record group G2. -/
theorem C1_all_survivors_tested_witness :
    (¬ G2.length < 4) ∧ (¬ (validRows parseW G2).length < 4) ∧
    (¬ (cleanRows (validRows parseW G2)).length < 4) ∧
    ((∀ r ∈ validRows parseW G2,
      ("high_total_paid" ∈ Streaming.rowFlags (Streaming.groupBounds parseW G2) r ↔
        Streaming.exceedsBound r.paid
          (Streaming.groupBounds parseW G2).high_total_paid = true) ∧
      ("high_paid_per_benef" ∈ Streaming.rowFlags (Streaming.groupBounds parseW G2) r ↔
        ∃ v, paidPerBenef r = some v ∧
          Streaming.exceedsBound v
            (Streaming.groupBounds parseW G2).high_paid_per_benef = true) ∧
      ("high_paid_per_claim" ∈ Streaming.rowFlags (Streaming.groupBounds parseW G2) r ↔
        ∃ v, paidPerClaim r = some v ∧
          Streaming.exceedsBound v
            (Streaming.groupBounds parseW G2).high_paid_per_claim = true) ∧
      ("high_unique_beneficiaries" ∈ Streaming.rowFlags (Streaming.groupBounds parseW G2) r ↔
        Streaming.exceedsBound r.benef
          (Streaming.groupBounds parseW G2).high_unique_benef = true)) ∧
    (Streaming.detect_outliers parseW G2).2 =
      ((validRows parseW G2).filter
        (fun r => !(Streaming.rowFlags (Streaming.groupBounds parseW G2) r).isEmpty)).map
        (Streaming.mutRow (Streaming.groupBounds parseW G2) G2)) :=
  ⟨G2_gate1, G2_gate2, G2_gate3,
   C1_all_survivors_tested parseW G2 G2_gate1 G2_gate2 G2_gate3⟩

/-- Witness for C5 at a concrete zero denominator. -/
theorem C5_safe_ratio_zero_denominator_witness :
    safe_ratio 10 0 = none ∧
    "high_paid_per_benef" ∉
      Streaming.rowFlags ⟨none, none, none, none⟩ ⟨0, 10, 0, 0⟩ :=
  ⟨(C5_safe_ratio_zero_denominator.1 10 0).2.mpr rfl,
   (C5_safe_ratio_zero_denominator.2.1 ⟨none, none, none, none⟩ ⟨0, 10, 0, 0⟩ rfl).2.1⟩

/-- Witness for C7 on the concrete group G4 (no OUTLIER_REASONS field). -/
theorem C7_emitted_rows_preserved_witness :
    (¬ G4.length < 4) ∧ (¬ (validRows parseW G4).length < 4) ∧
    (¬ (cleanRows (validRows parseW G4)).length < 4) ∧
    (∀ row ∈ G4, lookupField row "OUTLIER_REASONS" = none) ∧
    ((Streaming.detect_outliers parseW G4).2 =
      ((validRows parseW G4).filter
        (fun r => !(Streaming.rowFlags (Streaming.groupBounds parseW G4) r).isEmpty)).map
        (fun r => G4.getD r.idx [] ++
          [("OUTLIER_REASONS",
            String.intercalate "," (Streaming.rowFlags (Streaming.groupBounds parseW G4) r))]) ∧
    (∀ r ∈ validRows parseW G4,
      List.Sublist (Streaming.rowFlags (Streaming.groupBounds parseW G4) r)
        ["high_total_paid", "high_paid_per_benef",
         "high_paid_per_claim", "high_unique_beneficiaries"])) := by
  have hno : ∀ row ∈ G4, lookupField row "OUTLIER_REASONS" = none := by
    intro row hrow
    have hr : row = rowOf "10" "2" "5" := by simpa [G4] using hrow
    subst hr
    simp [rowOf, lookupField, List.find?]
  exact ⟨G4_gate1, G4_gate2, G4_gate3, hno,
    C7_emitted_rows_preserved parseW G4 G4_gate1 G4_gate2 G4_gate3 hno⟩

/-- Witness for C9 on the concrete group G4. -/
theorem C9_inf_fallback_unreachable_witness :
    (¬ (cleanRows (validRows parseW G4)).length < 4) ∧
    (4 ≤ ((cleanRows (validRows parseW G4)).map (fun r => r.paid)).length ∧
    4 ≤ ((cleanRows (validRows parseW G4)).filterMap paidPerBenef).length ∧
    4 ≤ ((cleanRows (validRows parseW G4)).filterMap paidPerClaim).length ∧
    4 ≤ ((cleanRows (validRows parseW G4)).map (fun r => r.benef)).length ∧
    (Streaming.groupBounds parseW G4).high_total_paid ≠ none ∧
    (Streaming.groupBounds parseW G4).high_paid_per_benef ≠ none ∧
    (Streaming.groupBounds parseW G4).high_paid_per_claim ≠ none ∧
    (Streaming.groupBounds parseW G4).high_unique_benef ≠ none) :=
  ⟨G4_gate3, C9_inf_fallback_unreachable parseW G4 G4_gate3⟩

/-- Witness for C10 on the concrete group G4. -/
theorem C10_mutates_caller_rows_witness :
    (¬ G4.length < 4) ∧ (¬ (validRows parseW G4).length < 4) ∧
    (¬ (cleanRows (validRows parseW G4)).length < 4) ∧
    ((Streaming.detect_outliers parseW G4).1.length = G4.length ∧
    (∀ r ∈ validRows parseW G4,
      Streaming.rowFlags (Streaming.groupBounds parseW G4) r ≠ [] →
      (Streaming.detect_outliers parseW G4).1.getD r.idx [] =
        Streaming.mutRow (Streaming.groupBounds parseW G4) G4 r) ∧
    (∀ i : ℕ,
      (∀ r ∈ validRows parseW G4, r.idx = i →
        Streaming.rowFlags (Streaming.groupBounds parseW G4) r = []) →
      (Streaming.detect_outliers parseW G4).1.getD i [] = G4.getD i []) ∧
    (Streaming.detect_outliers parseW G4).2 =
      ((validRows parseW G4).filter
        (fun r => !(Streaming.rowFlags (Streaming.groupBounds parseW G4) r).isEmpty)).map
        (fun r => (Streaming.detect_outliers parseW G4).1.getD r.idx [])) :=
  ⟨G4_gate1, G4_gate2, G4_gate3,
   C10_mutates_caller_rows parseW G4 G4_gate1 G4_gate2 G4_gate3⟩

theorem length_insertSorted (x : ℚ) :
    ∀ l : List ℚ, (insertSorted x l).length = l.length + 1 := by
  intro l
  induction l with
  | nil => simp [insertSorted]
  | cons y ys ih =>
    rw [insertSorted]
    split <;> simp [ih]

theorem length_sortQ (xs : List ℚ) : (sortQ xs).length = xs.length := by
  induction xs with
  | nil => simp [sortQ]
  | cons x l ih =>
    simp only [sortQ, List.foldr_cons] at ih ⊢
    rw [length_insertSorted, ih]
    simp

theorem mem_insertSorted (x y : ℚ) :
    ∀ l : List ℚ, y ∈ insertSorted x l → y = x ∨ y ∈ l := by
  intro l
  induction l with
  | nil => simp [insertSorted]
  | cons z zs ih =>
    rw [insertSorted]
    split
    · intro h
      simpa using h
    · intro h
      rcases List.mem_cons.mp h with h | h
      · right; simp [h]
      · rcases ih h with h | h
        · left; exact h
        · right; simp [h]

theorem mem_sortQ (y : ℚ) : ∀ xs : List ℚ, y ∈ sortQ xs → y ∈ xs := by
  intro xs
  induction xs with
  | nil => simp [sortQ]
  | cons x l ih =>
    simp only [sortQ, List.foldr_cons] at ih ⊢
    intro h
    rcases mem_insertSorted x y _ h with h | h
    · simp [h]
    · simp [ih h]

theorem getD_eq_of_all_mem (s : List ℚ) (k : ℚ) (i : ℕ) (d : ℚ)
    (hi : i < s.length) (hall : ∀ x ∈ s, x = k) : s.getD i d = k := by
  rw [List.getD_eq_getElem?_getD, List.getElem?_eq_getElem hi]
  exact hall _ (List.getElem_mem hi)

theorem quantile_eq (xs : List ℚ) (q : ℚ) :
    quantile xs q =
      (sortQ xs).getD ((Int.floor ((((sortQ xs).length : ℚ) - 1) * q)).toNat) 0 +
      ((((sortQ xs).length : ℚ) - 1) * q -
        (((Int.floor ((((sortQ xs).length : ℚ) - 1) * q)).toNat : ℕ) : ℚ)) *
      ((sortQ xs).getD ((Int.floor ((((sortQ xs).length : ℚ) - 1) * q)).toNat + 1)
          ((sortQ xs).getD ((Int.floor ((((sortQ xs).length : ℚ) - 1) * q)).toNat) 0) -
        (sortQ xs).getD ((Int.floor ((((sortQ xs).length : ℚ) - 1) * q)).toNat) 0) := rfl

/-- The quantile of a non-empty constant series is the constant, for any
interpolation point q ≤ 1. -/
theorem quantile_const (xs : List ℚ) (k q : ℚ) (hne : xs ≠ [])
    (hq1 : q ≤ 1) (hconst : ∀ x ∈ xs, x = k) : quantile xs q = k := by
  have hsmem : ∀ x ∈ sortQ xs, x = k := fun x hx => hconst x (mem_sortQ x xs hx)
  have hn : 1 ≤ (sortQ xs).length := by
    rw [length_sortQ]
    exact List.length_pos.mpr hne
  have hfle : (Int.floor ((((sortQ xs).length : ℚ) - 1) * q)).toNat < (sortQ xs).length := by
    have h0 : (0 : ℚ) ≤ ((sortQ xs).length : ℚ) - 1 := by
      have : (1 : ℚ) ≤ ((sortQ xs).length : ℚ) := by exact_mod_cast hn
      linarith
    have h1 : (((sortQ xs).length : ℚ) - 1) * q ≤ ((sortQ xs).length : ℚ) - 1 := by
      nlinarith
    have h2 : Int.floor ((((sortQ xs).length : ℚ) - 1) * q) ≤
        Int.floor (((sortQ xs).length : ℚ) - 1) := Int.floor_le_floor h1
    have h3 : Int.floor (((sortQ xs).length : ℚ) - 1) = ((sortQ xs).length : ℤ) - 1 := by
      rw [show (((sortQ xs).length : ℚ) - 1) = ((((sortQ xs).length : ℤ) - 1 : ℤ) : ℚ) by
        push_cast; ring]
      exact Int.floor_intCast _
    omega
  rw [quantile_eq]
  rw [getD_eq_of_all_mem _ k _ _ hfle hsmem]
  by_cases hi1 : (Int.floor ((((sortQ xs).length : ℚ) - 1) * q)).toNat + 1 <
      (sortQ xs).length
  · rw [getD_eq_of_all_mem _ k _ _ hi1 hsmem]
    ring
  · rw [List.getD_eq_getElem?_getD, List.getElem?_eq_none (by omega), Option.getD_none]
    ring

open Streaming in
/-- In a constant series of length at least 4 the IQR is 0 and the upper
fence collapses to the shared value itself. -/
theorem get_upper_bound_const (xs : List ℚ) (k : ℚ) (h4 : 4 ≤ xs.length)
    (hconst : ∀ x ∈ xs, x = k) : get_upper_bound xs = some k := by
  have hne : xs ≠ [] := by
    intro h
    rw [h] at h4
    simp at h4
  unfold get_upper_bound
  rw [if_neg (Nat.not_lt.mpr h4)]
  rw [quantile_const xs k (1 / 4) hne (by norm_num) hconst,
    quantile_const xs k (3 / 4) hne (by norm_num) hconst]
  norm_num

open Streaming in
/-- C4: in a group whose records all share identical values on every
metric, the Outlier Detector flags nothing: with IQR = 0 each upper bound
equals the shared value and the strict comparison excludes it (and if the
shared denominators are zero the ratio-validity gate already empties the
group). -/
theorem C4_identical_values_no_flags (parse : String → Option ℚ) (rows : List Row)
    (hid : ∃ p b c : ℚ, ∀ r ∈ validRows parse rows,
      r.paid = p ∧ r.benef = b ∧ r.claims = c) :
    (Streaming.detect_outliers parse rows).2 = [] := by
  obtain ⟨p, b, c, hall⟩ := hid
  rw [detect_outliers_eq]
  by_cases h1 : rows.length < 4
  · simp [h1]
  rw [if_neg h1]
  by_cases h2 : (validRows parse rows).length < 4
  · simp [h2]
  rw [if_neg h2]
  by_cases h3 : (cleanRows (validRows parse rows)).length < 4
  · simp [h3]
  rw [if_neg h3]
  have hclean_sub : ∀ r ∈ cleanRows (validRows parse rows), r ∈ validRows parse rows :=
    fun r hr => (mem_cleanRows.mp hr).1
  -- the clean set is non-empty, so the shared denominators are non-zero
  have hlen : 0 < (cleanRows (validRows parse rows)).length := by omega
  obtain ⟨r0, hr0⟩ := List.exists_mem_of_length_pos hlen
  have hr0v := hclean_sub r0 hr0
  have hr0m := hall r0 hr0v
  have hb : b ≠ 0 := by
    intro hb0
    have := (mem_cleanRows.mp hr0).2.1
    rw [paidPerBenef, hr0m.2.1, hb0] at this
    simp [safe_ratio] at this
  have hc : c ≠ 0 := by
    intro hc0
    have := (mem_cleanRows.mp hr0).2.2
    rw [paidPerClaim, hr0m.2.2, hc0] at this
    simp [safe_ratio] at this
  -- every bound is the corresponding shared value
  have hbound_paid : (groupBounds parse rows).high_total_paid = some p := by
    show get_upper_bound ((cleanRows (validRows parse rows)).map (fun r => r.paid)) = some p
    refine get_upper_bound_const _ p (by simpa using Nat.le_of_not_lt h3) ?_
    intro x hx
    rcases List.mem_map.mp hx with ⟨r, hr, hxr⟩
    rw [← hxr]
    exact (hall r (hclean_sub r hr)).1
  have hbound_benef : (groupBounds parse rows).high_unique_benef = some b := by
    show get_upper_bound ((cleanRows (validRows parse rows)).map (fun r => r.benef)) = some b
    refine get_upper_bound_const _ b (by simpa using Nat.le_of_not_lt h3) ?_
    intro x hx
    rcases List.mem_map.mp hx with ⟨r, hr, hxr⟩
    rw [← hxr]
    exact (hall r (hclean_sub r hr)).2.1
  have hppb_all : ∀ r ∈ cleanRows (validRows parse rows), paidPerBenef r = some (p / b) := by
    intro r hr
    have hm := hall r (hclean_sub r hr)
    rw [paidPerBenef, hm.1, hm.2.1]
    simp [safe_ratio, hb]
  have hppc_all : ∀ r ∈ cleanRows (validRows parse rows), paidPerClaim r = some (p / c) := by
    intro r hr
    have hm := hall r (hclean_sub r hr)
    rw [paidPerClaim, hm.1, hm.2.2]
    simp [safe_ratio, hc]
  have hfm_len : ∀ (f : NumRow → Option ℚ) (k : ℚ),
      (∀ r ∈ cleanRows (validRows parse rows), f r = some k) →
      ((cleanRows (validRows parse rows)).filterMap f).length =
        (cleanRows (validRows parse rows)).length :=
    fun f k hf => filterMap_length_all_isSome f _ (fun x hx => by rw [hf x hx]; rfl)
  have hbound_ppb : (groupBounds parse rows).high_paid_per_benef = some (p / b) := by
    show get_upper_bound ((cleanRows (validRows parse rows)).filterMap paidPerBenef) = some (p / b)
    refine get_upper_bound_const _ (p / b) ?_ ?_
    · rw [hfm_len paidPerBenef (p / b) hppb_all]
      exact Nat.le_of_not_lt h3
    · intro x hx
      rcases List.mem_filterMap.mp hx with ⟨r, hr, hxr⟩
      rw [hppb_all r hr] at hxr
      exact (Option.some.inj hxr).symm
  have hbound_ppc : (groupBounds parse rows).high_paid_per_claim = some (p / c) := by
    show get_upper_bound ((cleanRows (validRows parse rows)).filterMap paidPerClaim) = some (p / c)
    refine get_upper_bound_const _ (p / c) ?_ ?_
    · rw [hfm_len paidPerClaim (p / c) hppc_all]
      exact Nat.le_of_not_lt h3
    · intro x hx
      rcases List.mem_filterMap.mp hx with ⟨r, hr, hxr⟩
      rw [hppc_all r hr] at hxr
      exact (Option.some.inj hxr).symm
  -- no record exceeds its own shared value, so every flag list is empty
  have hflags : ∀ r ∈ validRows parse rows, rowFlags (groupBounds parse rows) r = [] := by
    intro r hr
    have hm := hall r hr
    have hppb : paidPerBenef r = some (p / b) := by
      rw [paidPerBenef, hm.1, hm.2.1]
      simp [safe_ratio, hb]
    have hppc : paidPerClaim r = some (p / c) := by
      rw [paidPerClaim, hm.1, hm.2.2]
      simp [safe_ratio, hc]
    rw [rowFlags, hm.1, hm.2.1, hppb, hppc, hbound_paid, hbound_benef, hbound_ppb, hbound_ppc]
    simp [exceedsBound, Option.elim]
  rw [applyFlags_snd _ _ _ _ (validRows_pairwise_ne parse rows), List.nil_append]
  rw [List.filter_eq_nil_iff.mpr (fun r hr => by simp [hflags r hr])]
  simp

/-- Witness for C4 on the concrete identical-valued group G4. -/
theorem C4_identical_values_no_flags_witness :
    (∃ p b c : ℚ, ∀ r ∈ validRows parseW G4,
      r.paid = p ∧ r.benef = b ∧ r.claims = c) ∧
    (Streaming.detect_outliers parseW G4).2 = [] := by
  have hid : ∃ p b c : ℚ, ∀ r ∈ validRows parseW G4,
      r.paid = p ∧ r.benef = b ∧ r.claims = c := by
    refine ⟨10, 2, 5, ?_⟩
    intro r hr
    have : r = (⟨0, 10, 2, 5⟩ : NumRow) ∨ r = ⟨1, 10, 2, 5⟩ ∨
        r = ⟨2, 10, 2, 5⟩ ∨ r = ⟨3, 10, 2, 5⟩ := by
      simpa [validRows, validRowsFrom, coerceRow, getNumField, lookupField, parseW, G4,
        rowOf, List.find?] using hr
    rcases this with h | h | h | h <;> subst h <;> exact ⟨rfl, rfl, rfl⟩
  exact ⟨hid, C4_identical_values_no_flags parseW G4 hid⟩

theorem validRows_G2_eval :
    validRows parseW G2 =
      [⟨0, 10, 1, 1⟩, ⟨1, 12, 1, 1⟩, ⟨2, 13, 1, 1⟩,
       ⟨3, 14, 1, 1⟩, ⟨4, 15, 1, 1⟩, ⟨5, 100, 1, 1⟩] := by
  simp [validRows, validRowsFrom, coerceRow, getNumField, lookupField, parseW, G2, rowOf,
    List.find?]

theorem cleanRows_G2_eval :
    cleanRows (validRows parseW G2) =
      [⟨0, 10, 1, 1⟩, ⟨1, 12, 1, 1⟩, ⟨2, 13, 1, 1⟩,
       ⟨3, 14, 1, 1⟩, ⟨4, 15, 1, 1⟩, ⟨5, 100, 1, 1⟩] := by
  rw [validRows_G2_eval]
  simp [cleanRows, paidPerBenef, paidPerClaim, safe_ratio]

theorem quantile_G2_q1 : quantile [10, 12, 13, 14, 15, 100] (1 / 4) = 49 / 4 := by
  simp [quantile, sortQ, insertSorted]
  norm_num

theorem quantile_G2_q3 : quantile [10, 12, 13, 14, 15, 100] (3 / 4) = 59 / 4 := by
  simp [quantile, sortQ, insertSorted]
  norm_num [show Int.toNat 3 = 3 from rfl]

theorem get_upper_bound_G2 :
    Streaming.get_upper_bound [10, 12, 13, 14, 15, 100] = some (37 / 2) := by
  unfold Streaming.get_upper_bound
  rw [if_neg (by norm_num)]
  rw [quantile_G2_q1, quantile_G2_q3]
  norm_num

theorem groupBounds_G2_eval :
    Streaming.groupBounds parseW G2 =
      ⟨some (37 / 2), some (37 / 2), some (37 / 2), some 1⟩ := by
  unfold Streaming.groupBounds
  rw [cleanRows_G2_eval]
  simp only [Streaming.computeBounds]
  congr 1
  · rw [show ([⟨0, 10, 1, 1⟩, ⟨1, 12, 1, 1⟩, ⟨2, 13, 1, 1⟩, ⟨3, 14, 1, 1⟩,
        ⟨4, 15, 1, 1⟩, (⟨5, 100, 1, 1⟩ : NumRow)].map (fun r => r.paid)) =
        [10, 12, 13, 14, 15, 100] by simp]
    exact get_upper_bound_G2
  · rw [show ([⟨0, 10, 1, 1⟩, ⟨1, 12, 1, 1⟩, ⟨2, 13, 1, 1⟩, ⟨3, 14, 1, 1⟩,
        ⟨4, 15, 1, 1⟩, (⟨5, 100, 1, 1⟩ : NumRow)].filterMap paidPerBenef) =
        [10, 12, 13, 14, 15, 100] by
      simp [paidPerBenef, safe_ratio]]
    exact get_upper_bound_G2
  · rw [show ([⟨0, 10, 1, 1⟩, ⟨1, 12, 1, 1⟩, ⟨2, 13, 1, 1⟩, ⟨3, 14, 1, 1⟩,
        ⟨4, 15, 1, 1⟩, (⟨5, 100, 1, 1⟩ : NumRow)].filterMap paidPerClaim) =
        [10, 12, 13, 14, 15, 100] by
      simp [paidPerClaim, safe_ratio]]
    exact get_upper_bound_G2
  · rw [show ([⟨0, 10, 1, 1⟩, ⟨1, 12, 1, 1⟩, ⟨2, 13, 1, 1⟩, ⟨3, 14, 1, 1⟩,
        ⟨4, 15, 1, 1⟩, (⟨5, 100, 1, 1⟩ : NumRow)].map (fun r => r.benef)) =
        [1, 1, 1, 1, 1, 1] by simp]
    exact get_upper_bound_const [1, 1, 1, 1, 1, 1] 1 (by simp)
      (fun x hx => by simpa using hx)

open Streaming in
/-- C2: on the literal group with TOTAL_PAID values 10, 12, 13, 14, 15, 100,
linear-interpolation quartiles give Q1 = 12.25 and Q3 = 14.75, the upper
bound is Q3 + 1.5 * IQR = 18.5, and exactly the record with TOTAL_PAID = 100
receives the high_total_paid flag. -/
theorem C2_literal_scenario :
    quantile [10, 12, 13, 14, 15, 100] (1 / 4) = 49 / 4 ∧
    quantile [10, 12, 13, 14, 15, 100] (3 / 4) = 59 / 4 ∧
    get_upper_bound [10, 12, 13, 14, 15, 100] = some (37 / 2) ∧
    (∀ r ∈ validRows parseW G2,
      ("high_total_paid" ∈ rowFlags (groupBounds parseW G2) r ↔ r.paid = 100)) ∧
    (∃ r ∈ validRows parseW G2, r.paid = 100) := by
  refine ⟨quantile_G2_q1, quantile_G2_q3, get_upper_bound_G2, ?_, ?_⟩
  · intro r hr
    rw [mem_rowFlags_paid, groupBounds_G2_eval]
    rw [validRows_G2_eval] at hr
    simp only [List.mem_cons, List.not_mem_nil, or_false] at hr
    rcases hr with h | h | h | h | h | h <;> subst h <;>
      simp [exceedsBound] <;> norm_num
  · refine ⟨⟨5, 100, 1, 1⟩, ?_, rfl⟩
    rw [validRows_G2_eval]
    simp

theorem validRows_G8_eval :
    validRows parseW G8 =
      [⟨0, 10, 1, 1⟩, ⟨1, 10, 1, 1⟩, ⟨2, 10, 1, 1⟩,
       ⟨3, 10, 1, 1⟩, ⟨4, 10, 1, 1⟩, ⟨5, 10, 100, 1⟩] := by
  simp [validRows, validRowsFrom, coerceRow, getNumField, lookupField, parseW, G8, rowOf,
    List.find?]

theorem cleanRows_G8_eval :
    cleanRows (validRows parseW G8) =
      [⟨0, 10, 1, 1⟩, ⟨1, 10, 1, 1⟩, ⟨2, 10, 1, 1⟩,
       ⟨3, 10, 1, 1⟩, ⟨4, 10, 1, 1⟩, ⟨5, 10, 100, 1⟩] := by
  rw [validRows_G8_eval]
  simp [cleanRows, paidPerBenef, paidPerClaim, safe_ratio]

theorem quantile_tenconst_q1 : quantile [10, 10, 10, 10, 10, 10] (1 / 4) = 10 :=
  quantile_const _ 10 _ (by simp) (by norm_num) (fun x hx => by simpa using hx)

theorem quantile_tenconst_q3 : quantile [10, 10, 10, 10, 10, 10] (3 / 4) = 10 :=
  quantile_const _ 10 _ (by simp) (by norm_num) (fun x hx => by simpa using hx)

theorem quantile_ppb_G8_q1 : quantile [10, 10, 10, 10, 10, 1 / 10] (1 / 4) = 10 := by
  simp [quantile, sortQ, insertSorted]
  norm_num [insertSorted]

theorem quantile_ppb_G8_q3 : quantile [10, 10, 10, 10, 10, 1 / 10] (3 / 4) = 10 := by
  simp [quantile, sortQ, insertSorted]
  norm_num [insertSorted, show Int.toNat 3 = 3 from rfl]

theorem quantile_benef_G8_q1 : quantile [1, 1, 1, 1, 1, 100] (1 / 4) = 1 := by
  simp [quantile, sortQ, insertSorted]
  norm_num

theorem quantile_benef_G8_q3 : quantile [1, 1, 1, 1, 1, 100] (3 / 4) = 1 := by
  simp [quantile, sortQ, insertSorted]
  norm_num [show Int.toNat 3 = 3 from rfl]

theorem groupBounds_G8_eval :
    Streaming.groupBounds parseW G8 = ⟨some 10, some 10, some 10, some 1⟩ := by
  unfold Streaming.groupBounds
  rw [cleanRows_G8_eval]
  simp only [Streaming.computeBounds]
  congr 1
  · rw [show ([⟨0, 10, 1, 1⟩, ⟨1, 10, 1, 1⟩, ⟨2, 10, 1, 1⟩, ⟨3, 10, 1, 1⟩,
        ⟨4, 10, 1, 1⟩, (⟨5, 10, 100, 1⟩ : NumRow)].map (fun r => r.paid)) =
        [10, 10, 10, 10, 10, 10] by simp]
    exact get_upper_bound_const _ 10 (by simp) (fun x hx => by simpa using hx)
  · rw [show ([⟨0, 10, 1, 1⟩, ⟨1, 10, 1, 1⟩, ⟨2, 10, 1, 1⟩, ⟨3, 10, 1, 1⟩,
        ⟨4, 10, 1, 1⟩, (⟨5, 10, 100, 1⟩ : NumRow)].filterMap paidPerBenef) =
        [10, 10, 10, 10, 10, 1 / 10] by
      norm_num [paidPerBenef, safe_ratio, List.filterMap_cons]]
    unfold Streaming.get_upper_bound
    rw [if_neg (by norm_num)]
    rw [quantile_ppb_G8_q1, quantile_ppb_G8_q3]
    norm_num
  · rw [show ([⟨0, 10, 1, 1⟩, ⟨1, 10, 1, 1⟩, ⟨2, 10, 1, 1⟩, ⟨3, 10, 1, 1⟩,
        ⟨4, 10, 1, 1⟩, (⟨5, 10, 100, 1⟩ : NumRow)].filterMap paidPerClaim) =
        [10, 10, 10, 10, 10, 10] by
      norm_num [paidPerClaim, safe_ratio, List.filterMap_cons]]
    exact get_upper_bound_const _ 10 (by simp) (fun x hx => by simpa using hx)
  · rw [show ([⟨0, 10, 1, 1⟩, ⟨1, 10, 1, 1⟩, ⟨2, 10, 1, 1⟩, ⟨3, 10, 1, 1⟩,
        ⟨4, 10, 1, 1⟩, (⟨5, 10, 100, 1⟩ : NumRow)].map (fun r => r.benef)) =
        [1, 1, 1, 1, 1, 100] by simp]
    unfold Streaming.get_upper_bound
    rw [if_neg (by norm_num)]
    rw [quantile_benef_G8_q1, quantile_benef_G8_q3]
    norm_num

theorem rowFlags_G8_plain (i : ℕ) :
    Streaming.rowFlags ⟨some 10, some 10, some 10, some 1⟩ ⟨i, 10, 1, 1⟩ = [] := by
  norm_num [Streaming.rowFlags, Streaming.exceedsBound, paidPerBenef, paidPerClaim,
    safe_ratio, Option.elim]

theorem rowFlags_G8_outlier :
    Streaming.rowFlags ⟨some 10, some 10, some 10, some 1⟩ ⟨5, 10, 100, 1⟩ =
      ["high_unique_beneficiaries"] := by
  norm_num [Streaming.rowFlags, Streaming.exceedsBound, paidPerBenef, paidPerClaim,
    safe_ratio, Option.elim]

theorem detect_G8_snd :
    (Streaming.detect_outliers parseW G8).2 =
      [Streaming.mutRow ⟨some 10, some 10, some 10, some 1⟩ G8 ⟨5, 10, 100, 1⟩] := by
  rw [Streaming.detect_outliers_eq]
  rw [if_neg (by simp [G8]), if_neg (by rw [validRows_G8_eval]; simp),
    if_neg (by rw [cleanRows_G8_eval]; simp)]
  rw [Streaming.applyFlags_snd _ _ _ _ (validRows_pairwise_ne parseW G8), List.nil_append]
  rw [groupBounds_G8_eval, validRows_G8_eval]
  simp [List.filter, rowFlags_G8_plain, rowFlags_G8_outlier]

open Streaming in
/-- C8: the two scripts implement different detection policies.  The chunked
variant's detect_outliers keeps a record iff its TOTAL_PAID strictly exceeds
the group's TOTAL_PAID upper IQR fence (and the group has at least 4
records), while the streaming variant tests four metrics; on the concrete
group G8/N8, whose only extreme value is in TOTAL_UNIQUE_BENEFICIARIES,
the chunked variant flags nothing and the streaming variant flags exactly
the extreme record, so the two flagged-record sets differ. -/
theorem C8_policies_differ :
    (∀ (g : List NumRow) (r : NumRow),
      r ∈ Chunked.detect_outliers g ↔
        r ∈ g ∧ 4 ≤ g.length ∧
          quantile (g.map (fun x => x.paid)) (3 / 4) +
            3 / 2 * (quantile (g.map (fun x => x.paid)) (3 / 4) -
              quantile (g.map (fun x => x.paid)) (1 / 4)) < r.paid) ∧
    Chunked.detect_outliers N8 = [] ∧
    (Streaming.detect_outliers parseW G8).2 =
      [mutRow ⟨some 10, some 10, some 10, some 1⟩ G8 ⟨5, 10, 100, 1⟩] ∧
    (Streaming.detect_outliers parseW G8).2 ≠ [] := by
  refine ⟨?_, ?_, detect_G8_snd, by rw [detect_G8_snd]; simp⟩
  · intro g r
    unfold Chunked.detect_outliers
    by_cases hlen : g.length < 4
    · rw [if_pos hlen]
      simp only [List.not_mem_nil, false_iff]
      rintro ⟨_, h4, _⟩
      omega
    · rw [if_neg hlen]
      have h4 : 4 ≤ g.length := Nat.le_of_not_lt hlen
      rw [List.mem_filter]
      simp [decide_eq_true_eq, h4]
  · unfold Chunked.detect_outliers
    rw [if_neg (by simp [N8])]
    rw [show (N8.map (fun r => r.paid)) = [10, 10, 10, 10, 10, 10] by simp [N8]]
    rw [quantile_tenconst_q1, quantile_tenconst_q3]
    norm_num [N8, List.filter]

namespace Streaming

/-- Processing a block of rows that all carry the current key only grows
the pending buffer; the buffer is flushed once, at the end. -/
theorem mainAux_uniform (parse : String → Option ℚ) (k : Option String × Option String) :
    ∀ (rs grp out : List Row),
      (∀ r ∈ rs, rowKey r = k) →
      mainAux parse rs (some k) grp out =
        if grp ++ rs = [] then out else out ++ (detect_outliers parse (grp ++ rs)).2 := by
  intro rs
  induction rs with
  | nil =>
    intro grp out _
    simp only [mainAux, List.append_nil]
    by_cases hg : grp = []
    · simp [hg]
    · simp [hg]
  | cons r rs ih =>
    intro grp out hk
    have hkr : rowKey r = k := hk r (by simp)
    simp only [mainAux]
    rw [if_neg (by simp [hkr])]
    rw [hkr]
    rw [ih (grp ++ [r]) out (fun q hq => hk q (by simp [hq]))]
    rw [List.append_assoc, List.singleton_append]

/-- Appending a final uniform-key group to the input appends exactly that
group's detector output, provided the group's key differs from the key of
the last earlier row (so the buffer is flushed at the group boundary). -/
theorem mainAux_last_group (parse : String → Option ℚ)
    (k : Option String × Option String) (last : List Row)
    (hlast : last ≠ []) (hkeys : ∀ r ∈ last, rowKey r = k) :
    ∀ (pre : List Row) (ck : Option (Option String × Option String)) (grp out : List Row),
      (pre = [] → (ck ≠ some k ∨ grp = [])) →
      (∀ r, pre.getLast? = some r → rowKey r ≠ k) →
      mainAux parse (pre ++ last) ck grp out =
        mainAux parse pre ck grp out ++ (detect_outliers parse last).2 := by
  intro pre
  induction pre with
  | nil =>
    intro ck grp out hj1 _
    rcases last with _ | ⟨r, rs⟩
    · exact absurd rfl hlast
    have hkr : rowKey r = k := hkeys r (by simp)
    simp only [List.nil_append, mainAux]
    by_cases hg : grp = []
    · rw [if_neg (by simp [hg])]
      rw [hkr, hg]
      rw [mainAux_uniform parse k rs ([] ++ [r]) out (fun q hq => hkeys q (by simp [hq]))]
      simp
    · have hck : ck ≠ some k := (hj1 rfl).resolve_right hg
      rw [if_pos ⟨by rw [hkr]; exact fun he => hck he.symm, hg⟩]
      rw [hkr]
      rw [mainAux_uniform parse k rs [r] (out ++ (detect_outliers parse grp).2)
        (fun q hq => hkeys q (by simp [hq]))]
      simp [hg]
  | cons p pre ih =>
    intro ck grp out _ hj2
    have hp_last : pre = [] → rowKey p ≠ k := by
      intro hpre
      subst hpre
      exact hj2 p (List.getLast?_singleton p)
    have hj2' : ∀ r, pre.getLast? = some r → rowKey r ≠ k := by
      intro r hr
      apply hj2 r
      rcases pre with _ | ⟨q, pre'⟩
      · exact absurd hr (by simp)
      · rw [List.getLast?_cons_cons]
        exact hr
    simp only [List.cons_append, mainAux]
    by_cases hcond : some (rowKey p) ≠ ck ∧ grp ≠ []
    · rw [if_pos hcond, if_pos hcond]
      refine ih (some (rowKey p)) [p] (out ++ (detect_outliers parse grp).2) ?_ hj2'
      intro hpre
      exact Or.inl (fun he => hp_last hpre (Option.some.inj he))
    · rw [if_neg hcond, if_neg hcond]
      refine ih (some (rowKey p)) (grp ++ [p]) out ?_ hj2'
      intro hpre
      exact Or.inl (fun he => hp_last hpre (Option.some.inj he))

end Streaming

open Streaming in
/-- C6: after the input sequence is exhausted the driver flushes the final
pending group: for any input consisting of earlier rows followed by a final
contiguous group under its own key (different from the key of the last
earlier row), the accumulated outlier output is exactly the output of the
earlier rows followed by the detector's result on the final group, so the
final group is evaluated exactly as any earlier group would be. -/
theorem C6_final_group_flushed (parse : String → Option ℚ)
    (pre last : List Row) (k : Option String × Option String)
    (hlast : last ≠ []) (hkeys : ∀ r ∈ last, rowKey r = k)
    (hjunction : ∀ r, pre.getLast? = some r → rowKey r ≠ k) :
    main_outlier_rows parse (pre ++ last) =
      main_outlier_rows parse pre ++ (detect_outliers parse last).2 := by
  unfold main_outlier_rows
  exact mainAux_last_group parse k last hlast hkeys pre none [] []
    (fun _ => Or.inl (by simp)) hjunction

/-- Witness for C6: a one-row group under key A followed by a final
six-row group under key B whose outlier is emitted. -/
theorem C6_final_group_flushed_witness :
    GB ≠ [] ∧
    (∀ r ∈ GB, Streaming.rowKey r = (some "B", some "1")) ∧
    (∀ r, GA.getLast? = some r → Streaming.rowKey r ≠ (some "B", some "1")) ∧
    Streaming.main_outlier_rows parseW (GA ++ GB) =
      Streaming.main_outlier_rows parseW GA ++
        (Streaming.detect_outliers parseW GB).2 := by
  have h1 : GB ≠ [] := by simp [GB]
  have h2 : ∀ r ∈ GB, Streaming.rowKey r = (some "B", some "1") := by
    intro r hr
    simp only [GB, keyedRow, List.mem_cons, List.not_mem_nil, or_false] at hr
    rcases hr with h | h | h | h | h | h <;> subst h <;>
      simp [Streaming.rowKey, lookupField, List.find?]
  have h3 : ∀ r, GA.getLast? = some r → Streaming.rowKey r ≠ (some "B", some "1") := by
    intro r hr
    have : r = keyedRow "A" "1" "10" "1" "1" := by
      have := hr
      simp [GA] at this
      exact this.symm
    subst this
    simp [Streaming.rowKey, keyedRow, lookupField, List.find?]
  exact ⟨h1, h2, h3, C6_final_group_flushed parseW GA GB (some "B", some "1") h1 h2 h3⟩

end Medicaid
